import Mathlib

/-!
Shallow embedding of the price-predictor browser extension's core logic:
the price parser (`parsePrice`), the product identity resolver
(`canonicalUrl` / `getProductId`), the per-product price history store
(`savePricePoint` / `buildSummary`) and the buy/wait signal
(`computeSignal`).  Machine numbers are modelled as exact rationals,
timestamps as natural-number milliseconds, and the keyed local-storage
map as a total function from product ids to point lists (a missing key
reads as the empty list, as in the JavaScript source).
-/

set_option maxRecDepth 8000

namespace PricePredictor

/-- Currency enum produced by the parser's token scan. -/
inductive Currency
  | SEK
  | EUR
  | USD
  | GBP
deriving DecidableEq, Repr

/-! ### Character helpers shared by the parser model -/

/-- JS whitespace as it can occur in the strings reaching the parser
(  has already been normalized to a plain space before any
whitespace test runs). -/
def isWsChar (c : Char) : Bool :=
  c = ' ' || c = '\t' || c = '\n' || c = '\r'

/-- Model of `text.replace(/ /g, " ")`: non-breaking spaces become spaces. -/
def normalizeNbsp (l : List Char) : List Char :=
  l.map (fun c => if c = '\u00A0' then ' ' else c)

/-- Model of `String.prototype.trim()`: strip leading and trailing whitespace. -/
def trimChars (l : List Char) : List Char :=
  ((l.dropWhile isWsChar).reverse.dropWhile isWsChar).reverse

/-- Lowercase a character list (model of `/.../i` case-insensitive tests). -/
def toLowerList (l : List Char) : List Char :=
  l.map Char.toLower

/-- Case-insensitive token test: `/tok/i.test(t)` for a literal token. -/
def hasTok (t : List Char) (tok : String) : Bool :=
  decide (tok.data <:+: toLowerList t)

/-- Currency detection of `parsePrice` (part_000 lines 8-12): an if-chain of
case-insensitive token tests; no token at all yields `none` (JS `null`,
surfaced as "UNKNOWN" at the store boundary). -/
def detectCurrency (t : List Char) : Option Currency :=
  if hasTok t "kr" || hasTok t "sek" then some Currency.SEK
  else if hasTok t "€" || hasTok t "eur" then some Currency.EUR
  else if hasTok t "$" || hasTok t "usd" then some Currency.USD
  else if hasTok t "£" || hasTok t "gbp" then some Currency.GBP
  else none

/-! ### The number matcher

Model of the first (leftmost) match of
`/(\d{1,3}([ ., ]\d{3})*|\d+)([.,]\d{2})?/` under JS backtracking
semantics.  Any position holding a digit yields a successful overall
match (the group star and the decimal part may match empty), so the
leftmost match starts at the first digit, the first alternative
`\d{1,3}` greedily takes up to three digits, the group star greedily
takes `sep + 3 digits` blocks, and the optional tail takes
`[.,] + 2 digits` when present; the `\d+` alternative is never reached. -/

/-- Group separator class `[ ., ]` of the grouped-thousands pattern. -/
def isGroupSep (c : Char) : Bool :=
  c = ' ' || c = '.' || c = ',' || c = '\u00A0'

/-- Decimal separator class `[.,]`. -/
def isDecSep (c : Char) : Bool :=
  c = '.' || c = ','

/-- Greedy `\d{0,n}`: up to `n` leading digits, and the rest. -/
def takeDigits : Nat → List Char → List Char × List Char
  | 0, l => ([], l)
  | _ + 1, [] => ([], [])
  | n + 1, c :: l =>
    if c.isDigit then
      let (d, r) := takeDigits n l
      (c :: d, r)
    else ([], c :: l)

/-- Greedy `([ ., ]\d{3})*`: separator-plus-three-digits blocks. -/
def takeGroupsAux : Nat → List Char → List Char × List Char
  | 0, l => ([], l)
  | fuel + 1, c :: d1 :: d2 :: d3 :: r =>
    if isGroupSep c && d1.isDigit && d2.isDigit && d3.isDigit then
      let (g, r') := takeGroupsAux fuel r
      (c :: d1 :: d2 :: d3 :: g, r')
    else ([], c :: d1 :: d2 :: d3 :: r)
  | _ + 1, l => ([], l)

/-- Greedy grouped-thousands blocks, with enough fuel for the whole list
(each consumed block removes four characters). -/
def takeGroups (l : List Char) : List Char × List Char :=
  takeGroupsAux l.length l

/-- Optional `([.,]\d{2})?`: a decimal separator and exactly two digits. -/
def takeDecimal : List Char → List Char
  | c :: d1 :: d2 :: _ =>
    if isDecSep c && d1.isDigit && d2.isDigit then [c, d1, d2] else []
  | _ => []

/-- The match produced at a position whose first character is a digit. -/
def matchNumberAt (l : List Char) : List Char :=
  let (d1, r1) := takeDigits 3 l
  let (gs, r2) := takeGroups r1
  d1 ++ gs ++ takeDecimal r2

/-- Leftmost match of the number pattern: scan to the first digit. -/
def findFirstNumber : List Char → Option (List Char)
  | [] => none
  | c :: r => if c.isDigit then some (matchNumberAt (c :: r)) else findFirstNumber r

/-! ### Cleaning the matched numeral (part_000 lines 18-41) -/

/-- Model of `lastIndexOf` on a character list, `-1` when absent (as in JS). -/
def lastIndexOf (x : Char) (l : List Char) : Int :=
  match l.reverse.findIdx? (fun c => c = x) with
  | some i => (l.length : Int) - 1 - (i : Int)
  | none => -1

/-- Model of `/sep(\d{2})$/.test(s)`: the string ends in `sep` plus two digits. -/
def endsWithSepTwoDigits (sep : Char) (l : List Char) : Bool :=
  match l.reverse with
  | d2 :: d1 :: c :: _ => d1.isDigit && d2.isDigit && c = sep
  | _ => false

/-- Model of `String.prototype.replace(",", ".")`: first occurrence only. -/
def replaceFirst (x y : Char) : List Char → List Char
  | [] => []
  | c :: l => if c = x then y :: l else c :: replaceFirst x y l

/-- The dot/comma disambiguation of `parsePrice`: with both separators the
rightmost one is the decimal point, a lone comma is decimal only when
followed by exactly two final digits (symmetrically for a lone dot). -/
def cleanNumber (l : List Char) : List Char :=
  let hasDot := l.contains '.'
  let hasComma := l.contains ','
  if hasDot && hasComma then
    let decPos := (max (lastIndexOf '.' l) (lastIndexOf ',' l)).toNat
    let intPart := (l.take decPos).filter (fun c => !isDecSep c)
    let decPart := l.drop (decPos + 1)
    intPart ++ '.' :: decPart
  else if hasComma then
    if endsWithSepTwoDigits ',' l then replaceFirst ',' '.' l
    else l.filter (fun c => !(c = ','))
  else if hasDot then
    if endsWithSepTwoDigits '.' l then l
    else l.filter (fun c => !(c = '.'))
  else l

/-- Digit value of a decimal digit character. -/
def digitVal (c : Char) : Nat := c.toNat - 48

/-- Natural number denoted by a list of decimal digit characters. -/
def natOfDigits (l : List Char) : Nat :=
  l.foldl (fun a c => 10 * a + digitVal c) 0

/-- Model of JS `Number(s)` (composed with the `isFinite` guard) on the
strings `cleanNumber` can produce, which use only digits, `'.'` and
`','`: the result is finite exactly for `digits ['.' digits]` with at
least one digit present; anything else (a stray comma, a second dot)
is NaN, i.e. `none`. -/
def jsNumberOpt (l : List Char) : Option ℚ :=
  let (ip, rest) := l.span Char.isDigit
  match rest with
  | [] => if ip = [] then some 0 else some (natOfDigits ip)
  | '.' :: fp =>
    if fp.all Char.isDigit && !(ip = [] && fp = []) then
      some (mkRat (natOfDigits ip * 10 ^ fp.length + natOfDigits fp) (10 ^ fp.length))
    else none
  | _ => none

/-- The structured candidate returned by `parsePrice`:
`{value, currency, raw}`. -/
structure PriceCandidate where
  value : ℚ
  currency : Option Currency
  raw : String
deriving DecidableEq, Repr

/-- Model of `parsePrice` (part_000 lines 2-47): normalize non-breaking spaces and
trim, detect the currency token, take the leftmost number-like match,
strip whitespace from it, disambiguate the separators, and convert;
`none` models the JS `null` returns (empty input, no match, non-finite
conversion). -/
def parsePrice (text : String) : Option PriceCandidate :=
  if text = "" then none
  else
    match findFirstNumber (trimChars (normalizeNbsp text.data)) with
    | none => none
    | some m0 =>
      match jsNumberOpt (cleanNumber (m0.filter (fun c => !isWsChar c))) with
      | none => none
      | some value =>
        some { value := value,
               currency := detectCurrency (trimChars (normalizeNbsp text.data)),
               raw := ⟨m0⟩ }

/-! ### Product identity resolver (content.js lines 49-73)

A URL is modelled at the structured level of the JS `URL` object: its
origin, hostname, path and the ordered multiset of query parameters.
`searchParams.delete(k)` removes every entry whose key is exactly `k`,
preserving the order of the rest. -/

/-- Structured view of a parsed URL. -/
structure Url where
  origin : String
  host : String
  path : String
  params : List (String × String)
deriving DecidableEq, Repr

/-- The tracking query parameters removed by `canonicalUrl`. -/
def trackingKeys : List String :=
  ["utm_source", "utm_medium", "utm_campaign", "utm_content", "utm_term",
   "gclid", "fbclid", "msclkid", "yclid", "ttclid"]

/-- The `forEach ... searchParams.delete(p)` loop: one exact-key deletion
per tracking key, in order. -/
def deleteTracking (ps : List (String × String)) : List (String × String) :=
  trackingKeys.foldl (fun acc k => acc.filter (fun kv => kv.1 ≠ k)) ps

/-- Model of `searchParams.toString()`: serialize the remaining parameters. -/
def encodeQuery (ps : List (String × String)) : String :=
  String.intercalate "&" (ps.map (fun kv => kv.1 ++ "=" ++ kv.2))

/-- Model of `canonicalUrl` (content.js lines 49-67): origin + path + the query
string left after removing the tracking parameters. -/
def canonicalUrl (u : Url) : String :=
  let qs := encodeQuery (deleteTracking u.params)
  u.origin ++ u.path ++ (if qs = "" then "" else "?" ++ qs)

/-- Model of `hostname.replace(/^www\./, "")`: strip one leading `www.`. -/
def stripWww (h : String) : String :=
  if "www.".data.isPrefixOf h.data then ⟨h.data.drop 4⟩ else h

/-- Model of `getProductId` (content.js lines 69-73): `host|canonicalUrl`. -/
def getProductId (u : Url) : String :=
  stripWww u.host ++ "|" ++ canonicalUrl u

/-! ### Price history store (content.js lines 414-459) -/

/-- A stored `PricePoint`: `{value, currency, timestamp, url, productId}`. -/
structure PricePoint where
  value : ℚ
  currency : Currency
  timestamp : Nat
  url : String
  productId : String
deriving DecidableEq, Repr

/-- The `PRICE_HISTORY_BY_PRODUCT` map; a key the object lacks reads as
the empty history, as `Array.isArray(all[productId]) ? ... : []` does. -/
def Store : Type := String → List PricePoint

/-- The store before any point is tracked. -/
def emptyStore : Store := fun _ => []

/-- Model of `history.slice(-n)`: the last `n` entries. -/
def sliceLast (n : Nat) (l : List PricePoint) : List PricePoint :=
  l.drop (l.length - n)

/-- The dedup guard of `savePricePoint`:
`last && last.value === price.value && (Date.now() - last.timestamp) < 60_000`
(the signed JS subtraction `now - last.timestamp < 60000` is exactly
`now < last.timestamp + 60000` over the integers). -/
def isDupOfLast (history : List PricePoint) (value : ℚ) (now : Nat) : Bool :=
  match history.getLast? with
  | some last => decide (last.value = value) && decide (now < last.timestamp + 60000)
  | none => false

/-- Model of `savePricePoint` (content.js lines 416-438): read the per-product
history; if the most recent point has the same value within the last
60 seconds, write the history back unchanged; otherwise append a fresh
point and keep the last 200 entries. -/
def savePricePoint (all : Store) (value : ℚ) (currency : Currency) (u : Url)
    (now : Nat) : Store :=
  let productId := getProductId u
  let history := all productId
  if isDupOfLast history value now then
    fun q => if q = productId then history else all q
  else
    let pt : PricePoint :=
      { value := value, currency := currency, timestamp := now,
        url := canonicalUrl u, productId := productId }
    fun q => if q = productId then sliceLast 200 (history ++ [pt]) else all q

/-- One tracked append: the extracted price, the page URL, the clock. -/
structure AppendOp where
  value : ℚ
  currency : Currency
  url : Url
  time : Nat
deriving DecidableEq, Repr

/-- Replay a sequence of `savePricePoint` calls from a given store. -/
def runFrom (S : Store) : List AppendOp → Store
  | [] => S
  | o :: ops => runFrom (savePricePoint S o.value o.currency o.url o.time) ops

/-- Replay a sequence of `savePricePoint` calls from the empty store. -/
def runAppends (ops : List AppendOp) : Store :=
  runFrom emptyStore ops

/-- The point `savePricePoint` would append for an operation. -/
def toPoint (o : AppendOp) : PricePoint :=
  { value := o.value, currency := o.currency, timestamp := o.time,
    url := canonicalUrl o.url, productId := getProductId o.url }

/-- The derived summary (content.js lines 451-458); the structure has no
`current` field — current price comes from a live extraction. -/
structure Summary where
  lowest : ℚ
  highest : ℚ
  currency : Currency
  productId : String
  points : Nat
  canonical : String
deriving DecidableEq, Repr

/-- Model of `Math.min(...values)` over a nonempty value list. -/
def jsMin (h : ℚ) (t : List ℚ) : ℚ := t.foldl min h

/-- Model of `Math.max(...values)` over a nonempty value list. -/
def jsMax (h : ℚ) (t : List ℚ) : ℚ := t.foldl max h

/-- Model of `buildSummary` (content.js lines 440-459): filter the stored history
to the requested currency, return `none` when nothing remains, else the
min, max and count of the remaining values. (Every stored value is a
finite rational here, so the `Number.isFinite` re-filter keeps all of
them.) -/
def buildSummary (all : Store) (u : Url) (currency : Currency) : Option Summary :=
  match (all (getProductId u)).filter (fun p => decide (p.currency = currency)) with
  | [] => none
  | h :: t =>
    some { lowest := jsMin h.value (t.map (·.value)),
           highest := jsMax h.value (t.map (·.value)),
           currency := currency, productId := getProductId u,
           points := (h :: t).length, canonical := canonicalUrl u }

/-- Model of `computeSignal` (content.js lines 461-466, identical in popup.js lines
114-119): the falsy test `!current || !lowest` is a zero test on finite
numbers, and the float literals 1.03 / 1.15 are the design constants
103/100 and 115/100. -/
def computeSignal (current lowest : ℚ) : String :=
  if current = 0 ∨ lowest = 0 then "—"
  else if current ≤ lowest * (103 / 100) then "Good time to buy"
  else if current ≥ lowest * (115 / 100) then "Consider waiting"
  else "Fair price"

/-! ### Claim theorems -/

/-- Claim C1: on the four spec inputs the price parser returns the
candidates 149.0 SEK, 149.0 SEK, 1299 SEK and 1299.50 SEK respectively,
locating in each the first number-like substring (with space, dot or
comma as group separator and dot or comma as decimal separator). -/
theorem parsePrice_spec_examples :
    parsePrice "149,00 kr" =
      some { value := 149, currency := some Currency.SEK, raw := "149,00" } ∧
    parsePrice "149.00 kr" =
      some { value := 149, currency := some Currency.SEK, raw := "149.00" } ∧
    parsePrice "1 299 kr" =
      some { value := 1299, currency := some Currency.SEK, raw := "1 299" } ∧
    parsePrice "1.299,50 kr" =
      some { value := mkRat 2599 2, currency := some Currency.SEK, raw := "1.299,50" } := by
  refine ⟨?_, ?_, ?_, ?_⟩ <;> decide

/-- A sample product page URL used by the concrete witnesses. -/
def sampleUrl : Url :=
  { origin := "https://shop.example", host := "shop.example",
    path := "/item/42", params := [] }

/-- Claim C2: from an empty history, an append at `t0` stores one point; a
second append of the same value within 60 seconds is a no-op leaving the
history of length 1; a third append of that value more than 60 seconds
after the stored point appends, yielding length 2. -/
theorem savePricePoint_dedup_window (all : Store) (u : Url) (v : ℚ) (c : Currency)
    (t0 t1 t2 : Nat) (h0 : all (getProductId u) = [])
    (h1 : t1 < t0 + 60000) (h2 : t0 + 60000 < t2) :
    ((savePricePoint all v c u t0) (getProductId u)).length = 1 ∧
    (savePricePoint (savePricePoint all v c u t0) v c u t1) (getProductId u) =
      (savePricePoint all v c u t0) (getProductId u) ∧
    ((savePricePoint (savePricePoint (savePricePoint all v c u t0) v c u t1) v c u t2)
        (getProductId u)).length = 2 := by
  have step : ∀ (S : Store) (now : Nat),
      (savePricePoint S v c u now) (getProductId u) =
        if isDupOfLast (S (getProductId u)) v now then S (getProductId u)
        else sliceLast 200 (S (getProductId u) ++
          [{ value := v, currency := c, timestamp := now,
             url := canonicalUrl u, productId := getProductId u }]) := by
    intro S now
    unfold savePricePoint
    by_cases h : isDupOfLast (S (getProductId u)) v now = true
    · rw [if_pos h, if_pos h, if_pos rfl]
    · rw [if_neg h, if_neg h, if_pos rfl]
  have e1 : (savePricePoint all v c u t0) (getProductId u) =
      [{ value := v, currency := c, timestamp := t0,
         url := canonicalUrl u, productId := getProductId u }] := by
    rw [step, h0]
    simp [isDupOfLast, sliceLast]
  have e2 : (savePricePoint (savePricePoint all v c u t0) v c u t1) (getProductId u) =
      (savePricePoint all v c u t0) (getProductId u) := by
    rw [step, e1]
    have hd : isDupOfLast
        [{ value := v, currency := c, timestamp := t0,
           url := canonicalUrl u, productId := getProductId u }] v t1 = true := by
      simp [isDupOfLast, h1]
    rw [if_pos hd, ← e1]
  have e3 : (savePricePoint (savePricePoint (savePricePoint all v c u t0) v c u t1)
      v c u t2) (getProductId u) =
      [{ value := v, currency := c, timestamp := t0,
         url := canonicalUrl u, productId := getProductId u },
       { value := v, currency := c, timestamp := t2,
         url := canonicalUrl u, productId := getProductId u }] := by
    rw [step, e2, e1]
    have hd : isDupOfLast
        [{ value := v, currency := c, timestamp := t0,
           url := canonicalUrl u, productId := getProductId u }] v t2 = false := by
      simp only [isDupOfLast, List.getLast?_singleton, Bool.and_eq_false_iff]
      right
      simp only [decide_eq_false_iff_not, not_lt]
      omega
    rw [if_neg (by simp [hd])]
    simp [sliceLast]
  exact ⟨by rw [e1]; rfl, e2, by rw [e3]; rfl⟩

/-- Concrete run of claim C2: value 100 SEK appended at 0 ms, again at
30000 ms (deduplicated), again at 61000 ms (stored). -/
theorem savePricePoint_dedup_window_witness :
    ((savePricePoint emptyStore 100 Currency.SEK sampleUrl 0)
        (getProductId sampleUrl)).length = 1 ∧
    (savePricePoint (savePricePoint emptyStore 100 Currency.SEK sampleUrl 0)
        100 Currency.SEK sampleUrl 30000) (getProductId sampleUrl) =
      (savePricePoint emptyStore 100 Currency.SEK sampleUrl 0) (getProductId sampleUrl) ∧
    ((savePricePoint (savePricePoint (savePricePoint emptyStore 100 Currency.SEK sampleUrl 0)
        100 Currency.SEK sampleUrl 30000) 100 Currency.SEK sampleUrl 61000)
        (getProductId sampleUrl)).length = 2 :=
  savePricePoint_dedup_window emptyStore sampleUrl 100 Currency.SEK 0 30000 61000
    rfl (by decide) (by decide)

/-! Helper lemmas about histories reachable through `savePricePoint`. -/

/-- Model of `Chain'` survives dropping a prefix (the store's oldest-first trim). -/
theorem chain'_drop {α : Type} {R : α → α → Prop} :
    ∀ (n : Nat) (l : List α), List.Chain' R l → List.Chain' R (l.drop n)
  | 0, _, h => h
  | _ + 1, [], _ => List.chain'_nil
  | n + 1, _ :: l, h => chain'_drop n l h.tail

/-- The guarantee actually maintained between CONSECUTIVE stored points:
equal values are at least 60 seconds apart. -/
def dedupChainRel (a b : PricePoint) : Prop :=
  a.value = b.value → a.timestamp + 60000 ≤ b.timestamp

/-- How one `savePricePoint` call reads back at an arbitrary key. -/
theorem savePricePoint_apply (S : Store) (v : ℚ) (c : Currency) (u : Url)
    (now : Nat) (r : String) :
    (savePricePoint S v c u now) r =
      if r = getProductId u then
        (if isDupOfLast (S (getProductId u)) v now then S (getProductId u)
         else sliceLast 200 (S (getProductId u) ++
           [{ value := v, currency := c, timestamp := now,
              url := canonicalUrl u, productId := getProductId u }]))
      else S r := by
  unfold savePricePoint
  by_cases hdup : isDupOfLast (S (getProductId u)) v now = true <;>
    by_cases hr : r = getProductId u <;>
      simp [hdup, hr]

/-- A single `savePricePoint` call preserves the consecutive-dedup chain
on every product's history. -/
theorem savePricePoint_chain_step (S : Store) (v : ℚ) (c : Currency) (u : Url)
    (now : Nat) (hS : ∀ r, List.Chain' dedupChainRel (S r)) :
    ∀ r, List.Chain' dedupChainRel ((savePricePoint S v c u now) r) := by
  intro r
  rw [savePricePoint_apply]
  by_cases hr : r = getProductId u
  · rw [if_pos hr]
    by_cases hdup : isDupOfLast (S (getProductId u)) v now = true
    · rw [if_pos hdup]; exact hS _
    · rw [if_neg hdup]
      unfold sliceLast
      apply chain'_drop
      rw [List.chain'_append]
      refine ⟨hS _, List.chain'_singleton _, ?_⟩
      intro x hx y hy
      simp only [List.head?_cons, Option.mem_def, Option.some.injEq] at hy
      subst hy
      intro hveq
      unfold isDupOfLast at hdup
      rw [Option.mem_def] at hx
      rw [hx] at hdup
      simp only [Bool.and_eq_true, decide_eq_true_eq, not_and, not_lt] at hdup
      exact hdup hveq
  · rw [if_neg hr]; exact hS r

/-- Every store reachable by replaying appends satisfies the
consecutive-dedup chain on every product. -/
theorem runFrom_chain : ∀ (ops : List AppendOp) (S : Store),
    (∀ r, List.Chain' dedupChainRel (S r)) →
    ∀ r, List.Chain' dedupChainRel ((runFrom S ops) r)
  | [], _, hS, r => hS r
  | o :: ops, S, hS, r =>
    runFrom_chain ops (savePricePoint S o.value o.currency o.url o.time)
      (savePricePoint_chain_step S o.value o.currency o.url o.time hS) r

/-- The append sequence of the claim-C3 counterexample: value 10 at 0 ms,
value 20 at 1000 ms, value 10 again at 2000 ms. -/
def c3ops : List AppendOp :=
  [{ value := 10, currency := Currency.SEK, url := sampleUrl, time := 0 },
   { value := 20, currency := Currency.SEK, url := sampleUrl, time := 1000 },
   { value := 10, currency := Currency.SEK, url := sampleUrl, time := 2000 }]

set_option maxRecDepth 4000 in
/-- Claim C3 fails on the code: the dedup guard only inspects the most
recent point, so appending value 10, then 20, then 10 again within two
seconds leaves a history with two equal-valued points 2000 ms apart. -/
theorem history_pairwise_dedup_fails :
    ∃ p1 ∈ runAppends c3ops (getProductId sampleUrl),
      ∃ p2 ∈ runAppends c3ops (getProductId sampleUrl),
        p1.timestamp < p2.timestamp ∧ p1.value = p2.value ∧
          p2.timestamp - p1.timestamp < 60000 := by decide

/-- Claim C3 (amended): after any sequence of appends, the dedup rule
holds between consecutive points of a product's history — two ADJACENT
points with the same value are at least 60 seconds apart — but not
between arbitrary pairs. -/
theorem savePricePoint_consecutive_dedup (ops : List AppendOp) (q : String) :
    List.Chain' dedupChainRel (runAppends ops q) :=
  runFrom_chain ops emptyStore (fun _ => List.chain'_nil) q

/-- Relation between consecutive append operations guaranteeing the dedup
guard does not fire: different values, or at least 60 seconds apart. -/
def nonDupStep (a b : PricePoint) : Prop :=
  ¬(a.value = b.value ∧ b.timestamp < a.timestamp + 60000)

instance : DecidableRel nonDupStep := fun a b => by
  unfold nonDupStep; infer_instance

/-- The history length never exceeds the 200-point retention cap. -/
theorem runFrom_length_le : ∀ (ops : List AppendOp) (S : Store) (q : String),
    (S q).length ≤ 200 → ((runFrom S ops) q).length ≤ 200
  | [], _, _, h => h
  | o :: ops, S, q, h => by
    refine runFrom_length_le ops _ q ?_
    rw [savePricePoint_apply]
    by_cases hq : q = getProductId o.url
    · rw [if_pos hq]
      by_cases hdup : isDupOfLast (S (getProductId o.url)) o.value o.time = true
      · rw [if_pos hdup, ← hq]; exact h
      · rw [if_neg hdup]
        unfold sliceLast
        rw [List.length_drop]
        omega
    · rw [if_neg hq]; exact h

/-- Replaying same-product appends whose consecutive operations never hit
the dedup guard appends every point and keeps the most recent 200: the
result is the mapped operation list with its oldest overflow dropped. -/
theorem runFrom_cap_eq (pid : String) : ∀ (ops : List AppendOp) (S : Store),
    (∀ o ∈ ops, getProductId o.url = pid) →
    (S pid).length ≤ 200 →
    List.Chain' nonDupStep (S pid ++ ops.map toPoint) →
    runFrom S ops pid =
      (S pid ++ ops.map toPoint).drop ((S pid).length + ops.length - 200) := by
  intro ops
  induction ops with
  | nil =>
    intro S _ hlen _
    rw [List.map_nil, List.append_nil, List.length_nil]
    have hz : (S pid).length + 0 - 200 = 0 := by omega
    rw [hz, List.drop_zero]
    rfl
  | cons o ops ih =>
    intro S hops hlen hchain
    have hu : getProductId o.url = pid := hops o (List.mem_cons_self o ops)
    have hchain1 : List.Chain' nonDupStep
        (S pid ++ toPoint o :: ops.map toPoint) := by
      simpa using hchain
    have hguard : isDupOfLast (S pid) o.value o.time = false := by
      unfold isDupOfLast
      cases hlast : (S pid).getLast? with
      | none => rfl
      | some last =>
        have hrel : nonDupStep last (toPoint o) :=
          (List.chain'_append.mp hchain1).2.2 last (by rw [Option.mem_def, hlast])
            (toPoint o) (by rw [List.head?_cons, Option.mem_def])
        unfold nonDupStep toPoint at hrel
        by_cases hv : last.value = o.value
        · have hnt : ¬ o.time < last.timestamp + 60000 := fun hlt => hrel ⟨hv, hlt⟩
          simp [hnt]
        · simp [hv]
    have hS : S (getProductId o.url) = S pid := by rw [hu]
    have happly : (savePricePoint S o.value o.currency o.url o.time) pid =
        sliceLast 200 (S pid ++ [toPoint o]) := by
      rw [savePricePoint_apply, if_pos hu.symm, hS, hguard]
      simp only [Bool.false_eq_true, if_false]
      rfl
    have hstep : runFrom S (o :: ops) pid =
        runFrom (savePricePoint S o.value o.currency o.url o.time) ops pid := rfl
    have hd : (S pid ++ [toPoint o]).length - 200 ≤ (S pid ++ [toPoint o]).length :=
      Nat.sub_le _ _
    have hlen' : ((savePricePoint S o.value o.currency o.url o.time) pid).length ≤ 200 := by
      rw [happly]
      unfold sliceLast
      rw [List.length_drop]
      omega
    have hchain' : List.Chain' nonDupStep
        ((savePricePoint S o.value o.currency o.url o.time) pid ++ ops.map toPoint) := by
      rw [happly]
      unfold sliceLast
      rw [← List.drop_append_of_le_length hd]
      apply chain'_drop
      rw [List.append_assoc, List.singleton_append]
      exact hchain1
    have heq := ih (savePricePoint S o.value o.currency o.url o.time)
      (fun o' ho' => hops o' (List.mem_cons_of_mem o ho')) hlen' hchain'
    rw [hstep, heq, happly]
    unfold sliceLast
    rw [← List.drop_append_of_le_length hd, List.drop_drop, List.append_assoc,
      List.singleton_append, List.map_cons]
    congr 1
    rw [List.length_drop, List.length_append, List.length_singleton, List.length_cons]
    omega

/-- Claim C4: appending 250 same-product points, each consecutive pair
outside the dedup window, leaves exactly the 200 most recently appended
points in their original order (oldest 50 evicted); and no replayed
sequence ever leaves more than 200 points. -/
theorem savePricePoint_cap_eviction (u : Url) (ops : List AppendOp)
    (hops : ∀ o ∈ ops, getProductId o.url = getProductId u)
    (hlen : ops.length = 250)
    (hchain : List.Chain' nonDupStep (ops.map toPoint)) :
    runAppends ops (getProductId u) = (ops.map toPoint).drop 50 ∧
    (runAppends ops (getProductId u)).length = 200 ∧
    ∀ ops' : List AppendOp, (runAppends ops' (getProductId u)).length ≤ 200 := by
  unfold runAppends
  have hmain := runFrom_cap_eq (getProductId u) ops emptyStore hops
    (by simp [emptyStore]) (by simpa [emptyStore] using hchain)
  have hE : emptyStore (getProductId u) = [] := rfl
  rw [hE, List.nil_append, List.length_nil, hlen] at hmain
  have h50 : 0 + 250 - 200 = 50 := by omega
  rw [h50] at hmain
  refine ⟨hmain, ?_, ?_⟩
  · rw [hmain, List.length_drop, List.length_map, hlen]
  · intro ops'
    exact runFrom_length_le ops' emptyStore (getProductId u) (by simp [emptyStore])

/-- Executable check for the consecutive non-dedup condition, used to
evaluate `List.Chain' nonDupStep` on concrete inputs. -/
def chainOkB : List PricePoint → Bool
  | [] => true
  | [_] => true
  | a :: b :: l => decide (nonDupStep a b) && chainOkB (b :: l)

theorem chainOkB_iff : ∀ l : List PricePoint,
    chainOkB l = true ↔ List.Chain' nonDupStep l
  | [] => by simp [chainOkB]
  | [_] => by simp [chainOkB]
  | a :: b :: l => by
    rw [List.chain'_cons, ← chainOkB_iff (b :: l)]
    show (decide (nonDupStep a b) && chainOkB (b :: l)) = true ↔
      nonDupStep a b ∧ chainOkB (b :: l) = true
    rw [Bool.and_eq_true, decide_eq_true_eq]

/-- The 250 concrete appends of the claim-C4 witness: distinct values
`i` SEK at times `60000·i` on the sample product. -/
def c4ops : List AppendOp :=
  (List.range 250).map (fun (i : Nat) =>
    { value := (i : ℚ), currency := Currency.SEK, url := sampleUrl,
      time := 60000 * i })

/-- Concrete run of claim C4: the 250 witness appends leave exactly the
last 200 points. -/
theorem savePricePoint_cap_eviction_witness :
    runAppends c4ops (getProductId sampleUrl) = (c4ops.map toPoint).drop 50 ∧
    (runAppends c4ops (getProductId sampleUrl)).length = 200 ∧
    ∀ ops' : List AppendOp, (runAppends ops' (getProductId sampleUrl)).length ≤ 200 :=
  savePricePoint_cap_eviction sampleUrl c4ops (by decide) (by decide)
    ((chainOkB_iff (c4ops.map toPoint)).mp (by decide))

/-- Claim C6: for positive current and lowest prices, `computeSignal` says
"Good time to buy" exactly when current ≤ lowest·1.03, "Consider waiting"
exactly when current ≥ lowest·1.15, and "Fair price" otherwise; in
particular the boundary products lowest·1.03, lowest·1.15 and the interior
point lowest·1.09 give the three respective answers. -/
theorem computeSignal_thresholds (current lowest : ℚ)
    (hc : 0 < current) (hl : 0 < lowest) :
    ((computeSignal current lowest = "Good time to buy" ↔
        current ≤ lowest * (103 / 100)) ∧
     (computeSignal current lowest = "Consider waiting" ↔
        current ≥ lowest * (115 / 100)) ∧
     (computeSignal current lowest = "Fair price" ↔
        lowest * (103 / 100) < current ∧ current < lowest * (115 / 100))) ∧
    computeSignal (lowest * (103 / 100)) lowest = "Good time to buy" ∧
    computeSignal (lowest * (115 / 100)) lowest = "Consider waiting" ∧
    computeSignal (lowest * (109 / 100)) lowest = "Fair price" := by
  have hzero : ∀ x : ℚ, 0 < x → ¬(x = 0 ∨ lowest = 0) := by
    rintro x hx (h | h)
    · exact absurd h (ne_of_gt hx)
    · exact absurd h (ne_of_gt hl)
  have horder : lowest * (103 / 100) < lowest * (115 / 100) := by
    have := mul_lt_mul_of_pos_left (show (103 : ℚ) / 100 < 115 / 100 by norm_num) hl
    linarith
  have main : ∀ x : ℚ, 0 < x →
      (computeSignal x lowest = "Good time to buy" ↔ x ≤ lowest * (103 / 100)) ∧
      (computeSignal x lowest = "Consider waiting" ↔ x ≥ lowest * (115 / 100)) ∧
      (computeSignal x lowest = "Fair price" ↔
        lowest * (103 / 100) < x ∧ x < lowest * (115 / 100)) := by
    intro x hx
    unfold computeSignal
    rw [if_neg (hzero x hx)]
    rcases le_or_lt x (lowest * (103 / 100)) with hgood | hgood
    · rw [if_pos hgood]
      refine ⟨by simp [hgood], ?_, ?_⟩
      · constructor
        · intro h; exact absurd h (by decide)
        · intro h; exact absurd (lt_of_lt_of_le horder h) (not_lt.mpr hgood)
      · constructor
        · intro h; exact absurd h (by decide)
        · intro h; exact absurd hgood (not_le.mpr h.1)
    · rw [if_neg (not_le.mpr hgood)]
      rcases le_or_lt (lowest * (115 / 100)) x with hwait | hwait
      · rw [if_pos hwait]
        refine ⟨?_, by simp [hwait], ?_⟩
        · constructor
          · intro h; exact absurd h (by decide)
          · intro h; exact absurd (lt_of_lt_of_le horder hwait) (not_lt.mpr h)
        · constructor
          · intro h; exact absurd h (by decide)
          · intro h; exact absurd hwait (not_le.mpr h.2)
      · rw [if_neg (not_le.mpr hwait)]
        refine ⟨?_, ?_, by simp [hgood, hwait]⟩
        · constructor
          · intro h; exact absurd h (by decide)
          · intro h; exact absurd hgood (not_lt.mpr h)
        · constructor
          · intro h; exact absurd h (by decide)
          · intro h; exact absurd hwait (not_lt.mpr h)
  have h103 : 0 < lowest * (103 / 100) := by positivity
  have h115 : 0 < lowest * (115 / 100) := by positivity
  have h109 : 0 < lowest * (109 / 100) := by positivity
  refine ⟨main current hc, ?_, ?_, ?_⟩
  · exact (main _ h103).1.mpr le_rfl
  · exact (main _ h115).2.1.mpr le_rfl
  · refine (main _ h109).2.2.mpr ⟨?_, ?_⟩
    · have := mul_lt_mul_of_pos_left (show (103 : ℚ) / 100 < 109 / 100 by norm_num) hl
      linarith
    · have := mul_lt_mul_of_pos_left (show (109 : ℚ) / 100 < 115 / 100 by norm_num) hl
      linarith

/-- Concrete run of claim C6: with lowest 100, the currents 100·1.03,
100·1.15 and 100·1.09 produce the three signals. -/
theorem computeSignal_thresholds_witness :
    computeSignal ((100 : ℚ) * (103 / 100)) 100 = "Good time to buy" ∧
    computeSignal ((100 : ℚ) * (115 / 100)) 100 = "Consider waiting" ∧
    computeSignal ((100 : ℚ) * (109 / 100)) 100 = "Fair price" :=
  (computeSignal_thresholds 1 100 one_pos (by norm_num)).2

/-- Claim C10: a `savePricePoint` call for one product — whether it
deduplicates, appends, or trims — leaves the stored history of every
other product unchanged. -/
theorem savePricePoint_frame (all : Store) (v : ℚ) (c : Currency) (u : Url)
    (now : Nat) (q : String) (hq : q ≠ getProductId u) :
    (savePricePoint all v c u now) q = all q := by
  unfold savePricePoint
  split <;> simp [hq]

/-- Concrete run of claim C10: appending to the sample product leaves an
unrelated product key untouched. -/
theorem savePricePoint_frame_witness :
    (savePricePoint emptyStore 100 Currency.SEK sampleUrl 0) "other.example|https://other.example/x" =
      emptyStore "other.example|https://other.example/x" :=
  savePricePoint_frame emptyStore 100 Currency.SEK sampleUrl 0
    "other.example|https://other.example/x" (by decide)

/-! Helper lemmas for `Math.min`/`Math.max` folds. -/

theorem jsMin_mem : ∀ (t : List ℚ) (h : ℚ), jsMin h t ∈ h :: t
  | [], h => List.mem_cons_self h []
  | a :: t, h => by
    have ih := jsMin_mem t (min h a)
    rw [show jsMin h (a :: t) = jsMin (min h a) t from rfl]
    rcases List.mem_cons.mp ih with heq | hmem
    · rcases min_choice h a with h1 | h1
      · rw [heq, h1]; exact List.mem_cons_self _ _
      · rw [heq, h1]; exact List.mem_cons_of_mem _ (List.mem_cons_self _ _)
    · exact List.mem_cons_of_mem _ (List.mem_cons_of_mem _ hmem)

theorem jsMin_le : ∀ (t : List ℚ) (h : ℚ) (x : ℚ), x ∈ h :: t → jsMin h t ≤ x
  | [], h, x, hx => by
    rcases List.mem_cons.mp hx with h1 | h1
    · rw [h1]; exact le_refl h
    · exact absurd h1 (List.not_mem_nil x)
  | a :: t, h, x, hx => by
    rw [show jsMin h (a :: t) = jsMin (min h a) t from rfl]
    have hhead := jsMin_le t (min h a) (min h a) (List.mem_cons_self _ _)
    rcases List.mem_cons.mp hx with h1 | h1
    · rw [h1] at *
      exact le_trans hhead (min_le_left _ _)
    · rcases List.mem_cons.mp h1 with h2 | h2
      · rw [h2] at *
        exact le_trans hhead (min_le_right _ _)
      · exact jsMin_le t (min h a) x (List.mem_cons_of_mem _ h2)

theorem jsMax_mem : ∀ (t : List ℚ) (h : ℚ), jsMax h t ∈ h :: t
  | [], h => List.mem_cons_self h []
  | a :: t, h => by
    have ih := jsMax_mem t (max h a)
    rw [show jsMax h (a :: t) = jsMax (max h a) t from rfl]
    rcases List.mem_cons.mp ih with heq | hmem
    · rcases max_choice h a with h1 | h1
      · rw [heq, h1]; exact List.mem_cons_self _ _
      · rw [heq, h1]; exact List.mem_cons_of_mem _ (List.mem_cons_self _ _)
    · exact List.mem_cons_of_mem _ (List.mem_cons_of_mem _ hmem)

theorem le_jsMax : ∀ (t : List ℚ) (h : ℚ) (x : ℚ), x ∈ h :: t → x ≤ jsMax h t
  | [], h, x, hx => by
    rcases List.mem_cons.mp hx with h1 | h1
    · rw [h1]; exact le_refl h
    · exact absurd h1 (List.not_mem_nil x)
  | a :: t, h, x, hx => by
    rw [show jsMax h (a :: t) = jsMax (max h a) t from rfl]
    have hhead := le_jsMax t (max h a) (max h a) (List.mem_cons_self _ _)
    rcases List.mem_cons.mp hx with h1 | h1
    · rw [h1] at *
      exact le_trans (le_max_left _ _) hhead
    · rcases List.mem_cons.mp h1 with h2 | h2
      · rw [h2] at *
        exact le_trans (le_max_right _ _) hhead
      · exact le_jsMax t (max h a) x (List.mem_cons_of_mem _ h2)

/-- Claim C5: `buildSummary` filters the stored history to the requested
currency; it returns `none` exactly when nothing matches (including a
product with no history at all), and otherwise a summary whose `lowest`
and `highest` are the minimum and maximum of the filtered values and
whose point count is the number of filtered points.  (The `Summary`
structure carries no `current` field — current price is live-extracted.) -/
theorem buildSummary_minmax (all : Store) (u : Url) (c : Currency) :
    (buildSummary all u c = none ↔
      (all (getProductId u)).filter (fun p => decide (p.currency = c)) = []) ∧
    (∀ s, buildSummary all u c = some s →
      s.lowest ∈ ((all (getProductId u)).filter
          (fun p => decide (p.currency = c))).map (fun p => p.value) ∧
      (∀ v ∈ ((all (getProductId u)).filter
          (fun p => decide (p.currency = c))).map (fun p => p.value), s.lowest ≤ v) ∧
      s.highest ∈ ((all (getProductId u)).filter
          (fun p => decide (p.currency = c))).map (fun p => p.value) ∧
      (∀ v ∈ ((all (getProductId u)).filter
          (fun p => decide (p.currency = c))).map (fun p => p.value), v ≤ s.highest) ∧
      s.points = ((all (getProductId u)).filter
          (fun p => decide (p.currency = c))).length) := by
  cases hh : (all (getProductId u)).filter (fun p => decide (p.currency = c)) with
  | nil =>
    have hb : buildSummary all u c = none := by
      unfold buildSummary
      rw [hh]
    refine ⟨⟨fun _ => rfl, fun _ => hb⟩, ?_⟩
    intro s hs
    rw [hb] at hs
    exact absurd hs (by simp)
  | cons h t =>
    have hb : buildSummary all u c =
        some { lowest := jsMin h.value (t.map (fun p => p.value)),
               highest := jsMax h.value (t.map (fun p => p.value)),
               currency := c, productId := getProductId u,
               points := (h :: t).length, canonical := canonicalUrl u } := by
      unfold buildSummary
      rw [hh]
    refine ⟨⟨fun hs => by rw [hb] at hs; exact absurd hs (by simp), fun hs => by
      exact absurd hs (by simp)⟩, ?_⟩
    intro s hs
    rw [hb] at hs
    have hrec := Option.some.inj hs
    rw [← hrec]
    rw [List.map_cons]
    refine ⟨jsMin_mem _ _, fun v hv => jsMin_le _ _ v hv, jsMax_mem _ _,
      fun v hv => le_jsMax _ _ v hv, rfl⟩

/-- The two-point store of the claim-C5 witness: 100 SEK then 80 SEK. -/
def c5store : Store :=
  runAppends
    [{ value := 100, currency := Currency.SEK, url := sampleUrl, time := 0 },
     { value := 80, currency := Currency.SEK, url := sampleUrl, time := 70000 }]

/-- Concrete run of claim C5 on the two-point sample store. -/
theorem buildSummary_minmax_witness :
    (buildSummary c5store sampleUrl Currency.SEK = none ↔
      (c5store (getProductId sampleUrl)).filter
        (fun p => decide (p.currency = Currency.SEK)) = []) ∧
    (∀ s, buildSummary c5store sampleUrl Currency.SEK = some s →
      s.lowest ∈ ((c5store (getProductId sampleUrl)).filter
          (fun p => decide (p.currency = Currency.SEK))).map (fun p => p.value) ∧
      (∀ v ∈ ((c5store (getProductId sampleUrl)).filter
          (fun p => decide (p.currency = Currency.SEK))).map (fun p => p.value),
          s.lowest ≤ v) ∧
      s.highest ∈ ((c5store (getProductId sampleUrl)).filter
          (fun p => decide (p.currency = Currency.SEK))).map (fun p => p.value) ∧
      (∀ v ∈ ((c5store (getProductId sampleUrl)).filter
          (fun p => decide (p.currency = Currency.SEK))).map (fun p => p.value),
          v ≤ s.highest) ∧
      s.points = ((c5store (getProductId sampleUrl)).filter
          (fun p => decide (p.currency = Currency.SEK))).length) :=
  buildSummary_minmax c5store sampleUrl Currency.SEK

/-! Helper for claim C7: the deletion loop equals a single filter. -/

theorem foldl_filter_eq : ∀ (ks : List String) (ps : List (String × String)),
    ks.foldl (fun acc k => acc.filter (fun kv => kv.1 ≠ k)) ps =
      ps.filter (fun kv => decide (kv.1 ∉ ks))
  | [], ps => by simp
  | k :: ks, ps => by
    rw [List.foldl_cons, foldl_filter_eq ks, List.filter_filter]
    congr 1
    funext kv
    by_cases h1 : kv.1 = k <;> by_cases h2 : kv.1 ∈ ks <;> simp [h1, h2]

/-- Claim C7: `getProductId` is a pure function of the structured URL, and
two URLs with the same host, origin and path whose queries agree after
discarding tracking parameters — i.e. variants obtained by adding,
removing or reordering only the tracking parameters — resolve to the same
product id; every non-tracking parameter is retained by the deletion
loop. -/
theorem getProductId_tracking_stable (u u' : Url)
    (hh : u.host = u'.host) (ho : u.origin = u'.origin) (hp : u.path = u'.path)
    (hq : u.params.filter (fun kv => decide (kv.1 ∉ trackingKeys)) =
      u'.params.filter (fun kv => decide (kv.1 ∉ trackingKeys))) :
    getProductId u = getProductId u' ∧
    deleteTracking u.params =
      u.params.filter (fun kv => decide (kv.1 ∉ trackingKeys)) := by
  have hdel : ∀ ps, deleteTracking ps =
      ps.filter (fun kv => decide (kv.1 ∉ trackingKeys)) := by
    intro ps
    unfold deleteTracking
    exact foldl_filter_eq trackingKeys ps
  constructor
  · unfold getProductId canonicalUrl
    rw [hh, ho, hp, hdel, hdel, hq]
  · exact hdel u.params

/-- A URL variant of `sampleUrl` carrying a variant selector and two
tracking parameters. -/
def c7url : Url :=
  { origin := "https://shop.example", host := "shop.example", path := "/item/42",
    params := [("variant", "red"), ("utm_source", "mail"), ("gclid", "abc")] }

/-- The same product reached with the tracking parameters reordered,
one removed and another added. -/
def c7url' : Url :=
  { origin := "https://shop.example", host := "shop.example", path := "/item/42",
    params := [("fbclid", "zzz"), ("variant", "red"), ("utm_campaign", "x")] }

/-- Concrete run of claim C7: the two tracking variants share a product id
and the deletion loop keeps exactly the non-tracking parameter. -/
theorem getProductId_tracking_stable_witness :
    getProductId c7url = getProductId c7url' ∧
    deleteTracking c7url.params =
      c7url.params.filter (fun kv => decide (kv.1 ∉ trackingKeys)) :=
  getProductId_tracking_stable c7url c7url' rfl rfl rfl (by decide)

/-- Claim C8: the parser's currency detection maps `kr`/`sek` tokens to
SEK, `€`/`eur` to EUR, `$`/`usd` to USD and `£`/`gbp` to GBP (earlier
tokens in this chain take precedence), and yields no currency at all —
JS `null`, surfaced as UNKNOWN — exactly when none of the tokens occurs,
never silently assuming a specific currency. -/
theorem detectCurrency_tokens (t : List Char) :
    (detectCurrency t = some Currency.SEK ↔
      (hasTok t "kr" || hasTok t "sek") = true) ∧
    (detectCurrency t = some Currency.EUR ↔
      ((hasTok t "€" || hasTok t "eur") = true ∧
       (hasTok t "kr" || hasTok t "sek") = false)) ∧
    (detectCurrency t = some Currency.USD ↔
      ((hasTok t "$" || hasTok t "usd") = true ∧
       (hasTok t "kr" || hasTok t "sek") = false ∧
       (hasTok t "€" || hasTok t "eur") = false)) ∧
    (detectCurrency t = some Currency.GBP ↔
      ((hasTok t "£" || hasTok t "gbp") = true ∧
       (hasTok t "kr" || hasTok t "sek") = false ∧
       (hasTok t "€" || hasTok t "eur") = false ∧
       (hasTok t "$" || hasTok t "usd") = false)) ∧
    (detectCurrency t = none ↔
      ((hasTok t "kr" || hasTok t "sek") = false ∧
       (hasTok t "€" || hasTok t "eur") = false ∧
       (hasTok t "$" || hasTok t "usd") = false ∧
       (hasTok t "£" || hasTok t "gbp") = false)) := by
  unfold detectCurrency
  by_cases h1 : (hasTok t "kr" || hasTok t "sek") = true <;>
    by_cases h2 : (hasTok t "€" || hasTok t "eur") = true <;>
      by_cases h3 : (hasTok t "$" || hasTok t "usd") = true <;>
        by_cases h4 : (hasTok t "£" || hasTok t "gbp") = true <;>
          simp [h1, h2, h3, h4]

/-- Digits survive neither `normalizeNbsp` nor `trimChars` appearing from
nowhere: members of the trimmed normalized text come from the input. -/
theorem mem_trim_norm {ch : Char} {l : List Char}
    (hch : ch ∈ trimChars (normalizeNbsp l)) :
    ∃ c ∈ l, ch = (if c = ' ' then ' ' else c) := by
  unfold trimChars at hch
  rw [List.mem_reverse] at hch
  have hch2 := (List.dropWhile_sublist isWsChar).mem hch
  rw [List.mem_reverse] at hch2
  have hch3 := (List.dropWhile_sublist isWsChar).mem hch2
  obtain ⟨c, hc, hfc⟩ := List.mem_map.mp hch3
  exact ⟨c, hc, hfc.symm⟩

/-- No digit, no match: the leftmost-number scan fails. -/
theorem findFirstNumber_eq_none : ∀ (l : List Char),
    (∀ c ∈ l, c.isDigit = false) → findFirstNumber l = none
  | [], _ => rfl
  | c :: r, h => by
    unfold findFirstNumber
    rw [h c (List.mem_cons_self c r)]
    exact findFirstNumber_eq_none r (fun x hx => h x (List.mem_cons_of_mem c hx))

/-- Claim C9: the parser is a total function into `Option` — it cannot
throw — and `none` (JS `null`) is its only failure outcome; in
particular the empty string and every digit-free string parse to
`none`. -/
theorem parsePrice_digit_free_null :
    parsePrice "" = none ∧
    ∀ t : String, (∀ ch ∈ t.data, ch.isDigit = false) → parsePrice t = none := by
  refine ⟨rfl, ?_⟩
  intro t ht
  unfold parsePrice
  by_cases h0 : t = ""
  · rw [if_pos h0]
  · rw [if_neg h0]
    have hnd : ∀ ch ∈ trimChars (normalizeNbsp t.data), ch.isDigit = false := by
      intro ch hch
      obtain ⟨c, hc, hfc⟩ := mem_trim_norm hch
      by_cases hnb : c = ' '
      · rw [hfc, if_pos hnb]
        rfl
      · rw [hfc, if_neg hnb]
        exact ht c hc
    rw [findFirstNumber_eq_none _ hnd]

/-- Concrete run of claim C9: a digit-free fragment parses to `none`. -/
theorem parsePrice_digit_free_null_witness :
    parsePrice "" = none ∧ parsePrice "pris: kr" = none :=
  ⟨parsePrice_digit_free_null.1,
   parsePrice_digit_free_null.2 "pris: kr" (by decide)⟩

end PricePredictor
